import Mathlib

/-!
Verification of the calculation engine of `src/app.py` (loan-calculator-app).

The numerical core consists of two functions:
* `calculate_amortization_schedule` (lines 9-55): month-by-month loan
  amortization with optional extra monthly payment and balloon payment;
* `calculate_car_value_over_time` (lines 58-65): geometric monthly
  depreciation of a car value;
plus the module-level negative-equity detection (lines 166-174).

The Python code carries full-precision values between iterations and applies
`round(x, 2)` only to the values stored in the output rows.  We embed the
arithmetic in ℚ and model `round(x, 2)` as exact round-half-to-even on the
value scaled by 100 (the documented semantics of Python's `round`).
-/

/-- Round-half-to-even to an integer, the rounding mode of Python's `round`. -/
def rne (q : ℚ) : ℤ :=
  let n := ⌊q⌋
  let f := q - (n : ℚ)
  if f < 1/2 then n
  else if 1/2 < f then n + 1
  else if n % 2 = 0 then n else n + 1

/-- `round(x, 2)` from Python: round to two decimal digits, half to even. -/
def round2 (x : ℚ) : ℚ := (rne (100 * x) : ℚ) / 100

theorem floor_le_rne (q : ℚ) : ⌊q⌋ ≤ rne q := by
  unfold rne
  dsimp only
  split_ifs <;> omega

theorem rne_le_floor_add_one (q : ℚ) : rne q ≤ ⌊q⌋ + 1 := by
  unfold rne
  dsimp only
  split_ifs <;> omega

theorem abs_rne_sub (q : ℚ) : |(rne q : ℚ) - q| ≤ 1/2 := by
  have h0 : (0:ℚ) ≤ q - (⌊q⌋ : ℚ) := sub_nonneg.mpr (Int.floor_le q)
  have h1 : q - (⌊q⌋ : ℚ) < 1 := by
    have := Int.lt_floor_add_one q
    linarith
  unfold rne
  dsimp only
  split_ifs with hlt hgt hev
  · rw [abs_le]
    constructor <;> linarith
  · rw [abs_le]
    push_cast
    constructor <;> linarith
  · have heq : q - (⌊q⌋ : ℚ) = 1/2 := le_antisymm (not_lt.mp hgt) (not_lt.mp hlt)
    rw [abs_le]
    constructor <;> linarith
  · have heq : q - (⌊q⌋ : ℚ) = 1/2 := le_antisymm (not_lt.mp hgt) (not_lt.mp hlt)
    rw [abs_le]
    push_cast
    constructor <;> linarith

theorem rne_mono {q q' : ℚ} (h : q ≤ q') : rne q ≤ rne q' := by
  rcases lt_or_le ⌊q⌋ ⌊q'⌋ with hf | hf
  · calc rne q ≤ ⌊q⌋ + 1 := rne_le_floor_add_one q
    _ ≤ ⌊q'⌋ := by omega
    _ ≤ rne q' := floor_le_rne q'
  · have hf' : ⌊q⌋ = ⌊q'⌋ := le_antisymm (Int.floor_mono h) hf
    have hsub : q - (⌊q⌋ : ℚ) ≤ q' - (⌊q'⌋ : ℚ) := by
      rw [← hf']
      linarith
    unfold rne
    dsimp only
    rw [hf'] at hsub ⊢
    split_ifs <;> first | omega | linarith

theorem rne_nonneg {q : ℚ} (h : 0 ≤ q) : 0 ≤ rne q := by
  have hn : 0 ≤ ⌊q⌋ := by
    rw [Int.le_floor]
    exact_mod_cast h
  unfold rne
  dsimp only
  split_ifs <;> omega

theorem round2_mono {x y : ℚ} (h : x ≤ y) : round2 x ≤ round2 y := by
  unfold round2
  have := @rne_mono (100 * x) (100 * y) (by linarith)
  have hc : ((rne (100 * x) : ℤ) : ℚ) ≤ ((rne (100 * y) : ℤ) : ℚ) := by
    exact_mod_cast this
  linarith

theorem round2_nonneg {x : ℚ} (h : 0 ≤ x) : 0 ≤ round2 x := by
  unfold round2
  have := @rne_nonneg (100 * x) (by linarith)
  have hc : (0:ℚ) ≤ ((rne (100 * x) : ℤ) : ℚ) := by exact_mod_cast this
  linarith

theorem abs_round2_sub (x : ℚ) : |round2 x - x| ≤ 1/200 := by
  have h := abs_rne_sub (100 * x)
  unfold round2
  have heq : (rne (100 * x) : ℚ) / 100 - x = ((rne (100 * x) : ℚ) - 100 * x) / 100 := by
    ring
  rw [heq, abs_div]
  have h100 : |(100:ℚ)| = 100 := by norm_num
  rw [h100]
  linarith

theorem rne_intCast (n : ℤ) : rne ((n : ℤ) : ℚ) = n := by
  unfold rne
  dsimp only
  rw [Int.floor_intCast]
  norm_num

/-- A value that is a whole number of cents is unchanged by `round(_, 2)`. -/
theorem round2_eq_self {x : ℚ} (k : ℤ) (h : 100 * x = (k : ℚ)) :
    round2 x = x := by
  unfold round2
  rw [h, rne_intCast]
  linarith

/-!
Data model.  `calculate_amortization_schedule(principal, annual_rate, years,
extra_payment, start_date, fees, balloon_payment)` takes the loan terms as
positional arguments; we collect them in a structure.  `start_date` is only
used to render the `Date` column through `strftime`; the arithmetic content of
a row's date is the day offset `30 * (month - 1)` from the start date, which is
what the `date` field below records.
-/

structure LoanTerms where
  principal : ℚ
  annual_rate : ℚ
  years : ℕ
  extra_payment : ℚ
  fees : ℚ
  balloon_payment : ℚ
deriving DecidableEq, Repr

/-- One row of the schedule: `[month, date, payment, principal_paid,
interest_paid, remaining_balance]` as appended in lines 28-35 / 43-50 of
`src/app.py`.  The four monetary fields hold the `round(_, 2)` values the code
stores. -/
structure PaymentRow where
  month : ℕ
  date : ℤ
  payment : ℚ
  principal_paid : ℚ
  interest_paid : ℚ
  remaining_balance : ℚ
deriving DecidableEq, Repr

/-- The state at exit of the `for month in range(1, months + 1)` loop: the
appended rows, the full-precision `balance` and `total_interest`, and the value
of the Python loop variable `month` after the loop. -/
structure LoopState where
  rows : List PaymentRow
  balance : ℚ
  totalInterest : ℚ
  month : ℕ
deriving DecidableEq, Repr

/-- The tuple `(df, total_interest, total_paid, month)` returned by
`calculate_amortization_schedule` (line 55); `df` is the list of rows. -/
structure Schedule where
  rows : List PaymentRow
  totalInterest : ℚ
  totalPaid : ℚ
  payoffMonth : ℕ
deriving DecidableEq, Repr

/-- `monthly_rate = annual_rate / 12 / 100` (line 10). -/
def monthlyRate (t : LoanTerms) : ℚ := t.annual_rate / 12 / 100

/-- `months = years * 12` (line 11). -/
def totalMonths (t : LoanTerms) : ℕ := t.years * 12

/-- `principal += fees` (line 12): the principal amount actually amortized. -/
def adjustedPrincipal (t : LoanTerms) : ℚ := t.principal + t.fees

/-- Lines 13-14: the effective payment per period.  Python's
`A if monthly_rate else B` selects `A` exactly when `monthly_rate != 0`. -/
def monthly_payment (t : LoanTerms) : ℚ :=
  (if monthlyRate t ≠ 0 then
    (adjustedPrincipal t - t.balloon_payment) *
      (monthlyRate t * (1 + monthlyRate t) ^ totalMonths t) /
      ((1 + monthlyRate t) ^ totalMonths t - 1)
  else
    (adjustedPrincipal t - t.balloon_payment) / (totalMonths t : ℚ))
  + t.extra_payment

/-- The loop of lines 21-38.  `month` is the current loop index, `rem` the
number of remaining indices (`months - month + 1` at entry).  Each iteration
computes `interest = balance * monthly_rate`,
`principal_paid = min(monthly_payment - interest, balance)`, updates the
balance and the interest total, appends a row of rounded values, and breaks as
soon as `balance <= 0`. -/
def amortLoop (r p : ℚ) (month rem : ℕ) (balance tI : ℚ) : LoopState :=
  match rem with
  | 0 => ⟨[], balance, tI, month - 1⟩
  | rem' + 1 =>
    let interest := balance * r
    let principal_paid := min (p - interest) balance
    let balance' := balance - principal_paid
    let tI' := tI + interest
    let row : PaymentRow :=
      ⟨month, 30 * ((month : ℤ) - 1), round2 p, round2 principal_paid,
        round2 interest, round2 balance'⟩
    if balance' ≤ 0 then ⟨[row], balance', tI', month⟩
    else
      let s := amortLoop r p (month + 1) rem' balance' tI'
      ⟨row :: s.rows, s.balance, s.totalInterest, s.month⟩

/-- The loop as invoked by `calculate_amortization_schedule`: `month` starts at
`1`, `balance` at the adjusted principal, `total_interest` at `0`. -/
def scheduleLoop (t : LoanTerms) : LoopState :=
  amortLoop (monthlyRate t) (monthly_payment t) 1 (totalMonths t)
    (adjustedPrincipal t) 0

/-- Lines 40-55: after the loop, if `balloon_payment > 0 and balance > 0`, the
balance is reduced by the balloon amount (no clamping at zero) and one extra
row is appended at `month + 1` carrying the balloon as both payment and
principal paid with zero interest; `total_paid` sums the stored (rounded)
`Payment` column; the returned month count is the last emitted month index. -/
def calculate_amortization_schedule (t : LoanTerms) : Schedule :=
  let s := scheduleLoop t
  if 0 < t.balloon_payment ∧ 0 < s.balance then
    let finalBalance := s.balance - t.balloon_payment
    let balloonRow : PaymentRow :=
      ⟨s.month + 1, 30 * (s.month : ℤ), round2 t.balloon_payment,
        round2 t.balloon_payment, 0, round2 finalBalance⟩
    let rows := s.rows ++ [balloonRow]
    ⟨rows, s.totalInterest, (rows.map PaymentRow.payment).sum, s.month + 1⟩
  else
    ⟨s.rows, s.totalInterest, (s.rows.map PaymentRow.payment).sum, s.month⟩

/-- The loop of lines 62-64 of `calculate_car_value_over_time`: each month the
carried full-precision value is multiplied by the constant monthly factor and
the rounded value is appended. -/
def carValueLoop (monthly_depreciation : ℚ) : ℚ → ℕ → List ℚ
  | _, 0 => []
  | value, m + 1 =>
    let value' := value * monthly_depreciation
    round2 value' :: carValueLoop monthly_depreciation value' m

/-- Lines 58-65.  The source computes
`monthly_depreciation = (1 - annual_depreciation / 100) ** (1 / 12)`, a real
twelfth root that is irrational for almost all rates, so the embedding takes
`monthly_depreciation` as a parameter; the theorems characterize it by
`monthly_depreciation ^ 12 = 1 - annual_depreciation / 100` together with
`0 ≤ monthly_depreciation`, which pins down the unique nonnegative real root
the Python expression denotes (for rates ≤ 100). -/
def calculate_car_value_over_time (initial_value monthly_depreciation : ℚ)
    (months : ℕ) : List ℚ :=
  carValueLoop monthly_depreciation initial_value months

/-- Lines 166-174, the module-level negative-equity detection:
`df["Negative Equity"] = df["Remaining Balance"] > df["Estimated Car Value"]`
is a positional comparison of the schedule rows with the value series, and the
reported month is the first row for which it holds, together with that row's
date; if no row qualifies, nothing is reported. -/
def firstNegativeEquity (rows : List PaymentRow) (vals : List ℚ) :
    Option (ℕ × ℤ) :=
  ((rows.zip vals).find? fun rv => decide (rv.2 < rv.1.remaining_balance)).map
    fun rv => (rv.1.month, rv.1.date)

/-!
Basic lemmas about one loop iteration and about `amortLoop`.
-/

theorem step_nonneg (p b r : ℚ) : 0 ≤ b - min (p - b * r) b := by
  have := min_le_right (p - b * r) b
  linarith

theorem step_eq_max (p b r : ℚ) :
    b - min (p - b * r) b = max (b + b * r - p) 0 := by
  rcases le_total (p - b * r) b with h | h
  · rw [min_eq_left h, max_eq_left (by linarith : (0:ℚ) ≤ b + b * r - p)]
    ring
  · rw [min_eq_right h, max_eq_right (by linarith : b + b * r - p ≤ 0)]
    ring

theorem amortLoop_zero (r p : ℚ) (month : ℕ) (b tI : ℚ) :
    amortLoop r p month 0 b tI = ⟨[], b, tI, month - 1⟩ := rfl

theorem amortLoop_succ (r p : ℚ) (month rem : ℕ) (b tI : ℚ) :
    amortLoop r p month (rem + 1) b tI =
      if b - min (p - b * r) b ≤ 0 then
        ⟨[⟨month, 30 * ((month : ℤ) - 1), round2 p, round2 (min (p - b * r) b),
            round2 (b * r), round2 (b - min (p - b * r) b)⟩],
          b - min (p - b * r) b, tI + b * r, month⟩
      else
        ⟨⟨month, 30 * ((month : ℤ) - 1), round2 p, round2 (min (p - b * r) b),
            round2 (b * r), round2 (b - min (p - b * r) b)⟩ ::
            (amortLoop r p (month + 1) rem (b - min (p - b * r) b)
              (tI + b * r)).rows,
          (amortLoop r p (month + 1) rem (b - min (p - b * r) b)
            (tI + b * r)).balance,
          (amortLoop r p (month + 1) rem (b - min (p - b * r) b)
            (tI + b * r)).totalInterest,
          (amortLoop r p (month + 1) rem (b - min (p - b * r) b)
            (tI + b * r)).month⟩ := rfl

theorem amortLoop_balance_nonneg (r p : ℚ) :
    ∀ rem month b tI, 0 ≤ b → 0 ≤ (amortLoop r p month rem b tI).balance := by
  intro rem
  induction rem with
  | zero =>
    intro month b tI hb
    rw [amortLoop_zero]
    exact hb
  | succ rem ih =>
    intro month b tI hb
    rw [amortLoop_succ]
    split_ifs with h
    · exact step_nonneg p b r
    · exact ih (month + 1) _ _ (step_nonneg p b r)

theorem amortLoop_totalInterest_ge (r p : ℚ) (hr : 0 ≤ r) :
    ∀ rem month b tI, 0 ≤ b → tI ≤ (amortLoop r p month rem b tI).totalInterest := by
  intro rem
  induction rem with
  | zero =>
    intro month b tI _
    rw [amortLoop_zero]
  | succ rem ih =>
    intro month b tI hb
    have hint : 0 ≤ b * r := mul_nonneg hb hr
    rw [amortLoop_succ]
    split_ifs with h
    · show tI ≤ tI + b * r
      linarith
    · have := ih (month + 1) (b - min (p - b * r) b) (tI + b * r) (step_nonneg p b r)
      show tI ≤ (amortLoop r p (month + 1) rem _ _).totalInterest
      linarith

theorem amortLoop_month_ge (r p : ℚ) :
    ∀ rem month b tI, month - 1 ≤ (amortLoop r p month rem b tI).month := by
  intro rem
  induction rem with
  | zero =>
    intro month b tI
    rw [amortLoop_zero]
  | succ rem ih =>
    intro month b tI
    rw [amortLoop_succ]
    split_ifs with h
    · show month - 1 ≤ month
      omega
    · have := ih (month + 1) (b - min (p - b * r) b) (tI + b * r)
      show month - 1 ≤ (amortLoop r p (month + 1) rem _ _).month
      omega

theorem amortLoop_rows_ne_nil (r p : ℚ) (rem month : ℕ) (b tI : ℚ)
    (h : 1 ≤ rem) : 1 ≤ (amortLoop r p month rem b tI).rows.length := by
  match rem with
  | rem' + 1 =>
    rw [amortLoop_succ]
    split_ifs with hbr
    · simp
    · simp

theorem amortLoop_row_payment (r p : ℚ) :
    ∀ rem month b tI row, row ∈ (amortLoop r p month rem b tI).rows →
      row.payment = round2 p := by
  intro rem
  induction rem with
  | zero =>
    intro month b tI row hrow
    rw [amortLoop_zero] at hrow
    simp at hrow
  | succ rem ih =>
    intro month b tI row hrow
    rw [amortLoop_succ] at hrow
    split_ifs at hrow with h
    · simp only [List.mem_singleton] at hrow
      rw [hrow]
    · simp only [List.mem_cons] at hrow
      rcases hrow with hrow | hrow
      · rw [hrow]
      · exact ih (month + 1) _ _ row hrow

/-- A larger payment never leaves a larger balance, a later exit month, or
more accumulated interest, given the same rate and starting balance. -/
theorem amortLoop_mono (r p₁ p₂ : ℚ) (hr : 0 ≤ r) (hp : p₁ ≤ p₂) :
    ∀ rem month b₁ b₂ tI₁ tI₂, b₂ ≤ b₁ → 0 ≤ b₂ → tI₂ ≤ tI₁ →
      (amortLoop r p₂ month rem b₂ tI₂).balance ≤
        (amortLoop r p₁ month rem b₁ tI₁).balance ∧
      (amortLoop r p₂ month rem b₂ tI₂).month ≤
        (amortLoop r p₁ month rem b₁ tI₁).month ∧
      (amortLoop r p₂ month rem b₂ tI₂).totalInterest ≤
        (amortLoop r p₁ month rem b₁ tI₁).totalInterest := by
  intro rem
  induction rem with
  | zero =>
    intro month b₁ b₂ tI₁ tI₂ hb hb0 htI
    rw [amortLoop_zero, amortLoop_zero]
    exact ⟨hb, le_refl _, htI⟩
  | succ rem ih =>
    intro month b₁ b₂ tI₁ tI₂ hb hb0 htI
    have hb10 : 0 ≤ b₁ := le_trans hb0 hb
    have hint : b₂ * r ≤ b₁ * r := mul_le_mul_of_nonneg_right hb hr
    have hstep : b₂ - min (p₂ - b₂ * r) b₂ ≤ b₁ - min (p₁ - b₁ * r) b₁ := by
      rw [step_eq_max, step_eq_max]
      exact max_le_max (by linarith) (le_refl 0)
    have hstep₂ : 0 ≤ b₂ - min (p₂ - b₂ * r) b₂ := step_nonneg p₂ b₂ r
    have hstep₁ : 0 ≤ b₁ - min (p₁ - b₁ * r) b₁ := step_nonneg p₁ b₁ r
    rw [amortLoop_succ, amortLoop_succ]
    split_ifs with h₂ h₁ h₁
    · refine ⟨hstep, le_refl _, ?_⟩
      show tI₂ + b₂ * r ≤ tI₁ + b₁ * r
      linarith
    · -- the larger-payment run breaks now, the other continues
      refine ⟨?_, ?_, ?_⟩
      · exact le_trans h₂
          (amortLoop_balance_nonneg r p₁ rem (month + 1) _ _ hstep₁)
      · have := amortLoop_month_ge r p₁ rem (month + 1)
          (b₁ - min (p₁ - b₁ * r) b₁) (tI₁ + b₁ * r)
        show month ≤ (amortLoop r p₁ (month + 1) rem _ _).month
        omega
      · have := amortLoop_totalInterest_ge r p₁ hr rem (month + 1)
          (b₁ - min (p₁ - b₁ * r) b₁) (tI₁ + b₁ * r) hstep₁
        show tI₂ + b₂ * r ≤ (amortLoop r p₁ (month + 1) rem _ _).totalInterest
        linarith
    · -- impossible: the smaller-payment run cannot break first
      exact absurd (le_trans hstep h₁) h₂
    · exact ih (month + 1) _ _ _ _ hstep hstep₂ (by linarith)

/-- While the effective payment covers the running interest, the rounded
remaining balances of the emitted rows are bounded by `round2` of the entry
balance and are non-increasing along the row list. -/
theorem amortLoop_chain (r p : ℚ) (hr : 0 ≤ r) :
    ∀ rem month b tI, 0 ≤ b → b * r ≤ p →
      (∀ x ∈ (amortLoop r p month rem b tI).rows.map
        PaymentRow.remaining_balance, x ≤ round2 b) ∧
      List.Chain' (fun a c => c ≤ a)
        ((amortLoop r p month rem b tI).rows.map
          PaymentRow.remaining_balance) := by
  intro rem
  induction rem with
  | zero =>
    intro month b tI hb hbr
    rw [amortLoop_zero]
    simp
  | succ rem ih =>
    intro month b tI hb hbr
    have hb' : b - min (p - b * r) b ≤ b := by
      have h0 : 0 ≤ min (p - b * r) b := le_min (by linarith) hb
      linarith
    have hb'0 : 0 ≤ b - min (p - b * r) b := step_nonneg p b r
    have hmono : round2 (b - min (p - b * r) b) ≤ round2 b := round2_mono hb'
    have hbr' : (b - min (p - b * r) b) * r ≤ p :=
      le_trans (mul_le_mul_of_nonneg_right hb' hr) hbr
    rw [amortLoop_succ]
    split_ifs with h
    · constructor
      · intro x hx
        simp only [List.map_cons, List.map_nil, List.mem_singleton] at hx
        rw [hx]
        exact hmono
      · simp
    · obtain ⟨ihbound, ihchain⟩ :=
        ih (month + 1) (b - min (p - b * r) b) (tI + b * r) hb'0 hbr'
      constructor
      · intro x hx
        simp only [List.map_cons, List.mem_cons] at hx
        rcases hx with hx | hx
        · rw [hx]
          exact hmono
        · exact le_trans (ihbound x hx) hmono
      · show List.Chain' (fun a c => c ≤ a)
          (round2 (b - min (p - b * r) b) ::
            (amortLoop r p (month + 1) rem _ _).rows.map
              PaymentRow.remaining_balance)
        cases hmap : (amortLoop r p (month + 1) rem
            (b - min (p - b * r) b) (tI + b * r)).rows.map
            PaymentRow.remaining_balance with
        | nil => simp
        | cons y ys =>
          rw [List.chain'_cons]
          constructor
          · apply ihbound
            rw [hmap]
            exact List.mem_cons_self y ys
          · rw [hmap] at ihchain
            exact ihchain

/-- The rounded `principal_paid` entries of the emitted rows sum to the drop
in the carried balance, up to `1/100` per row. -/
theorem amortLoop_sum_pp (r p : ℚ) :
    ∀ rem month b tI,
      |((amortLoop r p month rem b tI).rows.map
          PaymentRow.principal_paid).sum -
        (b - (amortLoop r p month rem b tI).balance)| ≤
      ((amortLoop r p month rem b tI).rows.length : ℚ) / 100 := by
  intro rem
  induction rem with
  | zero =>
    intro month b tI
    rw [amortLoop_zero]
    simp
  | succ rem ih =>
    intro month b tI
    rw [amortLoop_succ]
    split_ifs with h
    · have h1 := abs_round2_sub (min (p - b * r) b)
      show |([round2 (min (p - b * r) b)].sum : ℚ) -
        (b - (b - min (p - b * r) b))| ≤ ((1 : ℕ) : ℚ) / 100
      have heq : ([round2 (min (p - b * r) b)].sum : ℚ) -
          (b - (b - min (p - b * r) b)) =
          round2 (min (p - b * r) b) - min (p - b * r) b := by
        simp
      rw [heq]
      push_cast
      linarith
    · have ihh := ih (month + 1) (b - min (p - b * r) b) (tI + b * r)
      have h1 := abs_round2_sub (min (p - b * r) b)
      have htri := abs_add
        (round2 (min (p - b * r) b) - min (p - b * r) b)
        (((amortLoop r p (month + 1) rem (b - min (p - b * r) b)
            (tI + b * r)).rows.map PaymentRow.principal_paid).sum -
          ((b - min (p - b * r) b) -
            (amortLoop r p (month + 1) rem (b - min (p - b * r) b)
              (tI + b * r)).balance))
      show |(round2 (min (p - b * r) b) ::
          (amortLoop r p (month + 1) rem _ _).rows.map
            PaymentRow.principal_paid).sum -
        (b - (amortLoop r p (month + 1) rem _ _).balance)| ≤
        (((amortLoop r p (month + 1) rem _ _).rows.length + 1 : ℕ) : ℚ) / 100
      rw [List.sum_cons]
      have heq : round2 (min (p - b * r) b) +
          ((amortLoop r p (month + 1) rem (b - min (p - b * r) b)
            (tI + b * r)).rows.map PaymentRow.principal_paid).sum -
          (b - (amortLoop r p (month + 1) rem (b - min (p - b * r) b)
            (tI + b * r)).balance) =
          (round2 (min (p - b * r) b) - min (p - b * r) b) +
          (((amortLoop r p (month + 1) rem (b - min (p - b * r) b)
              (tI + b * r)).rows.map PaymentRow.principal_paid).sum -
            ((b - min (p - b * r) b) -
              (amortLoop r p (month + 1) rem (b - min (p - b * r) b)
                (tI + b * r)).balance)) := by
        ring
      rw [heq]
      push_cast
      linarith

/-- If the payment is large enough to amortize the balance within `rem`
months in the exact annuity sense, the loop exits with a nonpositive
balance. -/
theorem amortLoop_payoff (r p : ℚ) (hr : 0 < r) :
    ∀ rem month b tI, b * r * (1 + r) ^ rem ≤ p * ((1 + r) ^ rem - 1) →
      (amortLoop r p month rem b tI).balance ≤ 0 := by
  intro rem
  induction rem with
  | zero =>
    intro month b tI hann
    rw [amortLoop_zero]
    show b ≤ 0
    simp only [pow_zero] at hann
    nlinarith
  | succ rem ih =>
    intro month b tI hann
    rw [amortLoop_succ]
    split_ifs with h
    · exact h
    · apply ih
      have hpos : 0 < b - min (p - b * r) b := lt_of_not_le h
      have hmax : b - min (p - b * r) b = b + b * r - p := by
        rw [step_eq_max]
        rcases le_or_lt (b + b * r - p) 0 with hc | hc
        · exfalso
          rw [step_eq_max, max_eq_right hc] at hpos
          exact lt_irrefl 0 hpos
        · exact max_eq_left hc.le
      rw [hmax]
      rw [pow_succ] at hann
      ring_nf at hann ⊢
      linarith

/-!
Characterizations of the assembled `Schedule` in terms of the loop state.
-/

theorem calc_totalInterest (t : LoanTerms) :
    (calculate_amortization_schedule t).totalInterest =
      (scheduleLoop t).totalInterest := by
  simp only [calculate_amortization_schedule]
  split_ifs <;> rfl

theorem calc_payoffMonth (t : LoanTerms) :
    (calculate_amortization_schedule t).payoffMonth =
      if 0 < t.balloon_payment ∧ 0 < (scheduleLoop t).balance then
        (scheduleLoop t).month + 1
      else (scheduleLoop t).month := by
  simp only [calculate_amortization_schedule]
  split_ifs <;> rfl

theorem monthlyRate_nonneg (t : LoanTerms) (h : 0 ≤ t.annual_rate) :
    0 ≤ monthlyRate t :=
  div_nonneg (div_nonneg h (by norm_num)) (by norm_num)

theorem monthlyRate_pos (t : LoanTerms) (h : 0 < t.annual_rate) :
    0 < monthlyRate t :=
  div_pos (div_pos h (by norm_num)) (by norm_num)

theorem totalMonths_ne_zero (t : LoanTerms) (h : 1 ≤ t.years) :
    totalMonths t ≠ 0 := by
  simp only [totalMonths]
  omega

/-- C1: for every `LoanTerms` input (with a positive term, as the data model
requires), the effective payment per period equals `base + extra`, where the
base monthly payment is `B * r * (1+r)^N / ((1+r)^N - 1)` for monthly rate
`r > 0` and `B / N` for `r = 0`, with `B = principal + fees - balloon_payment`
and `N = term_years * 12`; every loop row stores that effective payment
(rounded to cents) in its payment column. -/
theorem c1_payment_formula (t : LoanTerms) (hy : 1 ≤ t.years) :
    (0 < monthlyRate t →
      monthly_payment t =
        (t.principal + t.fees - t.balloon_payment) * monthlyRate t *
            (1 + monthlyRate t) ^ (t.years * 12) /
            ((1 + monthlyRate t) ^ (t.years * 12) - 1) +
          t.extra_payment) ∧
    (monthlyRate t = 0 →
      monthly_payment t =
        (t.principal + t.fees - t.balloon_payment) /
            ((t.years * 12 : ℕ) : ℚ) +
          t.extra_payment) ∧
    (∀ row ∈ (scheduleLoop t).rows,
      row.payment = round2 (monthly_payment t)) := by
  refine ⟨?_, ?_, ?_⟩
  · intro hr
    unfold monthly_payment adjustedPrincipal totalMonths
    split_ifs with hc
    · ring
    · exact absurd (not_not.mp hc) (ne_of_gt hr)
  · intro hr
    unfold monthly_payment adjustedPrincipal totalMonths
    split_ifs with hc
    · exact absurd hr hc
    · rfl
  · intro row hrow
    exact amortLoop_row_payment (monthlyRate t) (monthly_payment t)
      (totalMonths t) 1 (adjustedPrincipal t) 0 row hrow

/-- C1 witness: a concrete positive-rate loan (annual rate 120%, so
`r = 1/10`) instantiating the formula. -/
theorem c1_payment_formula_witness :
    monthly_payment ⟨1000, 120, 1, 0, 0, 0⟩ =
      (1000 + 0 - 0) * monthlyRate ⟨1000, 120, 1, 0, 0, 0⟩ *
          (1 + monthlyRate ⟨1000, 120, 1, 0, 0, 0⟩) ^ (1 * 12) /
          ((1 + monthlyRate ⟨1000, 120, 1, 0, 0, 0⟩) ^ (1 * 12) - 1) +
        0 :=
  (c1_payment_formula ⟨1000, 120, 1, 0, 0, 0⟩ (by decide)).1
    (by with_unfolding_all decide)

/-- C4: when `balloon_payment > 0` and the balance is still positive after the
month loop, exactly one extra row is appended at `month + 1` whose payment and
principal_paid both equal the balloon amount (a cent-exact amount, hence equal
to its own rounding) with zero interest, and the balance is reduced by the
balloon amount without clamping at zero. -/
theorem c4_balloon_row (t : LoanTerms) (hb : 0 < t.balloon_payment)
    (hbal : 0 < (scheduleLoop t).balance)
    (hcents : round2 t.balloon_payment = t.balloon_payment) :
    (calculate_amortization_schedule t).rows =
      (scheduleLoop t).rows ++
        [⟨(scheduleLoop t).month + 1, 30 * ((scheduleLoop t).month : ℤ),
          t.balloon_payment, t.balloon_payment, 0,
          round2 ((scheduleLoop t).balance - t.balloon_payment)⟩] ∧
    (calculate_amortization_schedule t).payoffMonth =
      (scheduleLoop t).month + 1 := by
  simp only [calculate_amortization_schedule]
  split_ifs with h
  · constructor
    · rw [hcents]
    · rfl
  · exact absurd ⟨hb, hbal⟩ h

set_option maxRecDepth 8000 in
/-- C4 witness: a zero-rate loan of 1200 over one year with a 600 balloon;
the loop leaves balance 600 and the balloon row lands at month 13 with final
balance 0. -/
theorem c4_balloon_row_witness :
    (calculate_amortization_schedule ⟨1200, 0, 1, 0, 0, 600⟩).rows =
      (scheduleLoop ⟨1200, 0, 1, 0, 0, 600⟩).rows ++
        [⟨(scheduleLoop ⟨1200, 0, 1, 0, 0, 600⟩).month + 1,
          30 * ((scheduleLoop ⟨1200, 0, 1, 0, 0, 600⟩).month : ℤ),
          600, 600, 0,
          round2 ((scheduleLoop ⟨1200, 0, 1, 0, 0, 600⟩).balance - 600)⟩] ∧
    (calculate_amortization_schedule ⟨1200, 0, 1, 0, 0, 600⟩).payoffMonth =
      (scheduleLoop ⟨1200, 0, 1, 0, 0, 600⟩).month + 1 :=
  c4_balloon_row ⟨1200, 0, 1, 0, 0, 600⟩ (by with_unfolding_all decide)
    (by with_unfolding_all decide) (by with_unfolding_all decide)

/-- C5 amended: `calculate_amortization_schedule` performs no input validation
and raises no `InvalidTerms`: for any terms with `term_years ≥ 1` — including
negative annual rates and non-positive adjusted principal — it returns a
schedule with at least one row instead of failing.  (The hypothesis
`-2400 < annual_rate` marks the only fidelity boundary of the rational model:
at `annual_rate = -2400` with an even month count Python's line 13 divides by
zero.) -/
theorem c5_no_validation (t : LoanTerms) (hy : 1 ≤ t.years)
    (hrate : -2400 < t.annual_rate) :
    1 ≤ (calculate_amortization_schedule t).rows.length := by
  have h : 1 ≤ (scheduleLoop t).rows.length :=
    amortLoop_rows_ne_nil (monthlyRate t) (monthly_payment t)
      (totalMonths t) 1 (adjustedPrincipal t) 0
      (by simp only [totalMonths]; omega)
  simp only [calculate_amortization_schedule]
  split_ifs with hc
  · rw [List.length_append]
    omega
  · exact h

/-- C5 witness: discharging the hypotheses at a concrete loan. -/
theorem c5_no_validation_witness :
    1 ≤ (calculate_amortization_schedule ⟨1200, 0, 1, 0, 0, 0⟩).rows.length :=
  c5_no_validation ⟨1200, 0, 1, 0, 0, 0⟩ (by decide)
    (by with_unfolding_all decide)

/-- The same loan terms with a different extra monthly payment. -/
def withExtra (t : LoanTerms) (e : ℚ) : LoanTerms :=
  ⟨t.principal, t.annual_rate, t.years, e, t.fees, t.balloon_payment⟩

/-- C6 amended: holding all other terms fixed, increasing
`extra_monthly_payment` never increases the payoff month count and never
increases the total interest paid (the strict decrease asserted by the spec
fails; see the counterexample). -/
theorem c6_extra_payment (t : LoanTerms) (e₁ e₂ : ℚ) (he : e₁ ≤ e₂)
    (hr : 0 ≤ t.annual_rate) (hP : 0 ≤ adjustedPrincipal t) :
    (calculate_amortization_schedule (withExtra t e₂)).payoffMonth ≤
      (calculate_amortization_schedule (withExtra t e₁)).payoffMonth ∧
    (calculate_amortization_schedule (withExtra t e₂)).totalInterest ≤
      (calculate_amortization_schedule (withExtra t e₁)).totalInterest := by
  have hr' : 0 ≤ monthlyRate t := monthlyRate_nonneg t hr
  have hp : monthly_payment (withExtra t e₁) ≤ monthly_payment (withExtra t e₂) := by
    unfold monthly_payment withExtra monthlyRate adjustedPrincipal totalMonths
    dsimp only
    split_ifs <;> linarith
  have hmono := amortLoop_mono (monthlyRate t)
    (monthly_payment (withExtra t e₁)) (monthly_payment (withExtra t e₂))
    hr' hp (totalMonths t) 1 (adjustedPrincipal t) (adjustedPrincipal t) 0 0
    (le_refl _) hP (le_refl _)
  have hbal : (scheduleLoop (withExtra t e₂)).balance ≤
      (scheduleLoop (withExtra t e₁)).balance := hmono.1
  have hmon : (scheduleLoop (withExtra t e₂)).month ≤
      (scheduleLoop (withExtra t e₁)).month := hmono.2.1
  have htI : (scheduleLoop (withExtra t e₂)).totalInterest ≤
      (scheduleLoop (withExtra t e₁)).totalInterest := hmono.2.2
  constructor
  · rw [calc_payoffMonth, calc_payoffMonth]
    split_ifs with hA hB hB
    · omega
    · exact absurd ⟨hA.1, lt_of_lt_of_le hA.2 hbal⟩ hB
    · omega
    · omega
  · rw [calc_totalInterest, calc_totalInterest]
    exact htI

/-- C6 witness: discharging the hypotheses at a concrete zero-rate loan with
extra payments 0 and 1. -/
theorem c6_extra_payment_witness :
    (calculate_amortization_schedule
        (withExtra ⟨1200, 0, 1, 0, 0, 0⟩ 1)).payoffMonth ≤
      (calculate_amortization_schedule
        (withExtra ⟨1200, 0, 1, 0, 0, 0⟩ 0)).payoffMonth ∧
    (calculate_amortization_schedule
        (withExtra ⟨1200, 0, 1, 0, 0, 0⟩ 1)).totalInterest ≤
      (calculate_amortization_schedule
        (withExtra ⟨1200, 0, 1, 0, 0, 0⟩ 0)).totalInterest :=
  c6_extra_payment ⟨1200, 0, 1, 0, 0, 0⟩ 0 1 (by with_unfolding_all decide)
    (by with_unfolding_all decide) (by with_unfolding_all decide)

/-- C3 amended: `remaining_balance` is non-increasing across the loop rows
(the rows of the returned schedule minus the possible final balloon row)
whenever the effective payment covers the first month's interest — in
particular always when `balloon_payment = 0`.  A positive balloon can push the
base payment below the running interest and make the balance increase; see
the counterexample. -/
theorem c3_balance_monotone (t : LoanTerms) (hr : 0 ≤ t.annual_rate)
    (hP : 0 ≤ adjustedPrincipal t) (he : 0 ≤ t.extra_payment)
    (hy : 1 ≤ t.years)
    (h : t.balloon_payment = 0 ∨
      adjustedPrincipal t * monthlyRate t ≤ monthly_payment t) :
    List.Chain' (fun a c => c ≤ a)
      ((scheduleLoop t).rows.map PaymentRow.remaining_balance) := by
  have hr' : 0 ≤ monthlyRate t := monthlyRate_nonneg t hr
  have hkey : adjustedPrincipal t * monthlyRate t ≤ monthly_payment t := by
    rcases h with h | h
    · rcases eq_or_lt_of_le hr' with hz | hz
      · unfold monthly_payment
        split_ifs with hc
        · exact absurd hz.symm hc
        · have hdiv : 0 ≤ (adjustedPrincipal t - t.balloon_payment) /
              ((totalMonths t : ℕ) : ℚ) := by
            rw [h, sub_zero]
            exact div_nonneg hP (by positivity)
          rw [← hz, mul_zero]
          linarith
      · have hX : 1 < (1 + monthlyRate t) ^ totalMonths t :=
          one_lt_pow₀ (by linarith) (totalMonths_ne_zero t hy)
        unfold monthly_payment
        split_ifs with hc
        · rw [h, sub_zero]
          have h1 : adjustedPrincipal t * monthlyRate t ≤
              adjustedPrincipal t *
                (monthlyRate t * (1 + monthlyRate t) ^ totalMonths t) /
                ((1 + monthlyRate t) ^ totalMonths t - 1) := by
            rw [le_div_iff₀ (by linarith :
              (0:ℚ) < (1 + monthlyRate t) ^ totalMonths t - 1)]
            nlinarith [mul_nonneg hP hr']
          linarith
        · exact absurd (ne_of_gt hz) hc
    · exact h
  exact (amortLoop_chain (monthlyRate t) (monthly_payment t) hr'
    (totalMonths t) 1 (adjustedPrincipal t) 0 hP hkey).2

/-- C3 witness: discharging the hypotheses at a concrete zero-rate loan. -/
theorem c3_balance_monotone_witness :
    List.Chain' (fun a c => c ≤ a)
      ((scheduleLoop ⟨1200, 0, 1, 0, 0, 0⟩).rows.map
        PaymentRow.remaining_balance) :=
  c3_balance_monotone ⟨1200, 0, 1, 0, 0, 0⟩ (by with_unfolding_all decide)
    (by with_unfolding_all decide) (by with_unfolding_all decide)
    (by decide) (Or.inl rfl)

/-- C2 amended: for valid terms with positive rate and no balloon payment,
the rounded `principal_paid` column sums to the adjusted principal
`principal + fees` within the accumulated rounding tolerance of `0.01` per
row.  (With a positive balloon the code's total is off by the interest the
balloon portion accrues; see the counterexample.) -/
theorem c2_sum_principal (t : LoanTerms) (hr : 0 < t.annual_rate)
    (hb : t.balloon_payment = 0) (hy : 1 ≤ t.years)
    (hP : 0 ≤ adjustedPrincipal t) (he : 0 ≤ t.extra_payment) :
    |(((calculate_amortization_schedule t).rows.map
        PaymentRow.principal_paid).sum) - adjustedPrincipal t| ≤
      ((calculate_amortization_schedule t).rows.length : ℚ) / 100 := by
  have hr' : 0 < monthlyRate t := monthlyRate_pos t hr
  have hX : 1 < (1 + monthlyRate t) ^ totalMonths t :=
    one_lt_pow₀ (by linarith) (totalMonths_ne_zero t hy)
  have hann : adjustedPrincipal t * monthlyRate t *
      (1 + monthlyRate t) ^ totalMonths t ≤
      monthly_payment t * ((1 + monthlyRate t) ^ totalMonths t - 1) := by
    unfold monthly_payment
    split_ifs with hc
    · rw [hb, sub_zero]
      have hbase : adjustedPrincipal t *
          (monthlyRate t * (1 + monthlyRate t) ^ totalMonths t) /
          ((1 + monthlyRate t) ^ totalMonths t - 1) *
          ((1 + monthlyRate t) ^ totalMonths t - 1) =
          adjustedPrincipal t *
            (monthlyRate t * (1 + monthlyRate t) ^ totalMonths t) :=
        div_mul_cancel₀ _ (by linarith)
      nlinarith [mul_nonneg he (by linarith :
        (0:ℚ) ≤ (1 + monthlyRate t) ^ totalMonths t - 1)]
    · exact absurd (ne_of_gt hr') hc
  have hle : (scheduleLoop t).balance ≤ 0 :=
    amortLoop_payoff (monthlyRate t) (monthly_payment t) hr'
      (totalMonths t) 1 (adjustedPrincipal t) 0 hann
  have hge : 0 ≤ (scheduleLoop t).balance :=
    amortLoop_balance_nonneg (monthlyRate t) (monthly_payment t)
      (totalMonths t) 1 (adjustedPrincipal t) 0 hP
  have hbal0 : (scheduleLoop t).balance = 0 := le_antisymm hle hge
  have hrows : (calculate_amortization_schedule t).rows =
      (scheduleLoop t).rows := by
    simp only [calculate_amortization_schedule]
    split_ifs with hc
    · rw [hb] at hc
      exact absurd hc.1 (lt_irrefl 0)
    · rfl
  rw [hrows]
  have hsum : |(((scheduleLoop t).rows.map PaymentRow.principal_paid).sum) -
      (adjustedPrincipal t - (scheduleLoop t).balance)| ≤
      (((scheduleLoop t).rows.length : ℕ) : ℚ) / 100 :=
    amortLoop_sum_pp (monthlyRate t) (monthly_payment t)
      (totalMonths t) 1 (adjustedPrincipal t) 0
  rw [hbal0, sub_zero] at hsum
  exact hsum

/-- C2 witness: discharging the hypotheses at a concrete positive-rate loan
(annual rate 120%, one year). -/
theorem c2_sum_principal_witness :
    |(((calculate_amortization_schedule ⟨1000, 120, 1, 0, 0, 0⟩).rows.map
        PaymentRow.principal_paid).sum) -
      adjustedPrincipal ⟨1000, 120, 1, 0, 0, 0⟩| ≤
      ((calculate_amortization_schedule
        ⟨1000, 120, 1, 0, 0, 0⟩).rows.length : ℚ) / 100 :=
  c2_sum_principal ⟨1000, 120, 1, 0, 0, 0⟩ (by with_unfolding_all decide) rfl
    (by decide) (by with_unfolding_all decide) (by with_unfolding_all decide)

set_option maxRecDepth 8000 in
/-- C2 counterexample: with a positive balloon payment (valid terms: the
amortized base `2000 - 1980 = 20` is nonnegative, annual rate 24% so `r > 0`),
the rounded principal column does NOT sum to `principal + fees - balloon`
within `0.01` per row: the base payment amortizes only the non-balloon part,
so the balance left at term end is `balloon * (1+r)^N`, not `balloon`, and the
gap is hundreds of currency units. -/
theorem c2_counterexample :
    (0:ℚ) < 24 ∧ (0:ℚ) ≤ 2000 + 0 - 1980 ∧
    ((calculate_amortization_schedule ⟨2000, 24, 1, 0, 0, 1980⟩).rows.length :
        ℚ) / 100 <
      |(((calculate_amortization_schedule ⟨2000, 24, 1, 0, 0, 1980⟩).rows.map
          PaymentRow.principal_paid).sum) -
        (adjustedPrincipal ⟨2000, 24, 1, 0, 0, 1980⟩ - 1980)| := by
  refine ⟨by norm_num, by norm_num, ?_⟩
  with_unfolding_all decide

set_option maxRecDepth 8000 in
/-- C3 counterexample: valid terms (all fields nonnegative,
`principal + fees - balloon = 10 ≥ 0`, positive term) for which the
remaining balance of the loop rows strictly increases from the first row to
the second: the balloon-reduced base payment is below the monthly interest,
so the loan amortizes negatively. -/
theorem c3_counterexample :
    (0:ℚ) ≤ 1000 + 0 - 990 ∧
    ¬ List.Chain' (fun a c => c ≤ a)
      ((scheduleLoop ⟨1000, 24, 1, 0, 0, 990⟩).rows.map
        PaymentRow.remaining_balance) := by
  refine ⟨by norm_num, ?_⟩
  intro hch
  rw [List.chain'_iff_get] at hch
  have h01 := hch 0 (by with_unfolding_all decide)
  exact absurd h01 (by with_unfolding_all decide)

set_option maxRecDepth 8000 in
/-- C5 counterexample: the code does not fail with `InvalidTerms` on the
inputs the spec declares invalid.  At `annual_rate = -12 < 0` it returns a
full 12-row schedule, and at adjusted principal `0 ≤ 0` it returns a one-row
schedule — no exception of any kind is raised. -/
theorem c5_counterexample :
    (-12 : ℚ) < 0 ∧
    (calculate_amortization_schedule ⟨1000, -12, 1, 0, 0, 0⟩).rows.length
      = 12 ∧
    adjustedPrincipal ⟨0, 12, 1, 0, 0, 0⟩ ≤ 0 ∧
    (calculate_amortization_schedule ⟨0, 12, 1, 0, 0, 0⟩).rows.length = 1 := by
  refine ⟨by norm_num, ?_, ?_, ?_⟩ <;> with_unfolding_all decide

set_option maxRecDepth 8000 in
/-- C6 counterexample: increasing the extra monthly payment from 0 to 1 on a
zero-rate 1200/1-year loan leaves the payoff month count unchanged at 12, so
the payoff count does not STRICTLY decrease. -/
theorem c6_counterexample :
    (0:ℚ) < 1 ∧
    (calculate_amortization_schedule ⟨1200, 0, 1, 1, 0, 0⟩).payoffMonth =
      (calculate_amortization_schedule ⟨1200, 0, 1, 0, 0, 0⟩).payoffMonth := by
  refine ⟨by norm_num, ?_⟩
  with_unfolding_all decide

/-!
Negative-equity detection (C7) and the depreciation estimator (C8-C10).
-/

/-- `List.find?` returns the first element satisfying the predicate: the hit
sits at an index all of whose predecessors fail the predicate. -/
theorem find?_some_first {α : Type} (pred : α → Bool) :
    ∀ (l : List α) (a : α), l.find? pred = some a →
      ∃ i, ∃ hi : i < l.length, l.get ⟨i, hi⟩ = a ∧ pred a = true ∧
        ∀ j (hj : j < i), pred (l.get ⟨j, lt_trans hj hi⟩) = false := by
  intro l
  induction l with
  | nil =>
    intro a h
    simp at h
  | cons x xs ih =>
    intro a h
    cases hx : pred x with
    | true =>
      rw [List.find?_cons_of_pos _ hx] at h
      injection h with h
      subst h
      refine ⟨0, Nat.succ_pos xs.length, rfl, hx, ?_⟩
      intro j hj
      exact absurd hj (Nat.not_lt_zero j)
    | false =>
      rw [List.find?_cons_of_neg _ (by simp [hx])] at h
      obtain ⟨i, hi, hget, hpred, hmin⟩ := ih a h
      refine ⟨i + 1, Nat.succ_lt_succ hi, hget, hpred, ?_⟩
      intro j hj
      cases j with
      | zero => exact hx
      | succ j' => exact hmin j' (Nat.lt_of_succ_lt_succ hj)

/-- A four-month loan-balance prefix whose rounded balances first exceed the
car value at month 3 (positionally, index 2). -/
def demoRows : List PaymentRow :=
  [⟨1, 0, 0, 0, 0, 17000⟩, ⟨2, 30, 0, 0, 0, 16900⟩,
   ⟨3, 60, 0, 0, 0, 16850⟩, ⟨4, 90, 0, 0, 0, 16800⟩]

/-- The matching four-month estimated-value series. -/
def demoVals : List ℚ := [18000, 17600, 16800, 16400]

/-- C7: negative equity holds at a row exactly when `remaining_balance` is
strictly greater than the estimated value at the same month index; the
detection reports the month-and-date pair of the minimal such index and
reports nothing when no index qualifies; on the demo data where the balance
first overtakes the value at month 3, it returns month 3 exactly. -/
theorem c7_negative_equity :
    (∀ rows vals, firstNegativeEquity rows vals = none ↔
      ∀ p ∈ rows.zip vals, p.1.remaining_balance ≤ p.2) ∧
    (∀ rows vals m d, firstNegativeEquity rows vals = some (m, d) →
      ∃ i, ∃ hi : i < (rows.zip vals).length,
        ((rows.zip vals).get ⟨i, hi⟩).2 <
          ((rows.zip vals).get ⟨i, hi⟩).1.remaining_balance ∧
        m = ((rows.zip vals).get ⟨i, hi⟩).1.month ∧
        d = ((rows.zip vals).get ⟨i, hi⟩).1.date ∧
        ∀ j (hj : j < i),
          ((rows.zip vals).get ⟨j, lt_trans hj hi⟩).1.remaining_balance ≤
            ((rows.zip vals).get ⟨j, lt_trans hj hi⟩).2) ∧
    firstNegativeEquity demoRows demoVals = some (3, 60) := by
  refine ⟨?_, ?_, by with_unfolding_all decide⟩
  · intro rows vals
    simp [firstNegativeEquity, List.find?_eq_none, not_lt]
  · intro rows vals m d h
    simp only [firstNegativeEquity] at h
    rw [Option.map_eq_some'] at h
    obtain ⟨rv, hfind, hmap⟩ := h
    obtain ⟨i, hi, hget, hpred, hmin⟩ := find?_some_first _ _ _ hfind
    injection hmap with hm hd
    refine ⟨i, hi, ?_, ?_, ?_, ?_⟩
    · rw [hget]
      exact of_decide_eq_true hpred
    · rw [hget]
      exact hm.symm
    · rw [hget]
      exact hd.symm
    · intro j hj
      exact not_lt.mp (of_decide_eq_false (hmin j hj))

/-- C7 witness: the minimality description instantiated on the demo data. -/
theorem c7_negative_equity_witness :
    ∃ i, ∃ hi : i < (demoRows.zip demoVals).length,
      ((demoRows.zip demoVals).get ⟨i, hi⟩).2 <
        ((demoRows.zip demoVals).get ⟨i, hi⟩).1.remaining_balance ∧
      3 = ((demoRows.zip demoVals).get ⟨i, hi⟩).1.month ∧
      (60:ℤ) = ((demoRows.zip demoVals).get ⟨i, hi⟩).1.date ∧
      ∀ j (hj : j < i),
        ((demoRows.zip demoVals).get ⟨j, lt_trans hj hi⟩).1.remaining_balance ≤
          ((demoRows.zip demoVals).get ⟨j, lt_trans hj hi⟩).2 :=
  c7_negative_equity.2.1 demoRows demoVals 3 60 (by with_unfolding_all decide)

/-- Element extraction from a tabulated series. -/
theorem getD_map_range {β : Type} (f : ℕ → β) (d : β) (n i : ℕ) (h : i < n) :
    ((List.range n).map f).getD i d = f i := by
  rw [List.getD_eq_getElem?_getD, List.getElem?_map, List.getElem?_range h]
  rfl

/-- Modelled from the spec: the yearly-multiplier depreciation mode of
`computeValueSeries` (spec section 4.2).  Section 9 notes that the source
variants diverge on the depreciation model and section 4.2 requires both
modes, but `src/app.py` contains only the constant-rate mode
(`calculate_car_value_over_time`), so this mode is defined from the spec's
words: for 0-based month `i`, `yearIndex = min (i / 12) lastIndex`,
`nextIndex = min (yearIndex + 1) lastIndex`, `t = (i % 12) / 12`, ratio
`(1 - t) * curve[yearIndex] + t * curve[nextIndex]`, value
`round(initialValue * ratio, 2)`. -/
def computeValueSeriesYearly (initialValue : ℚ) (curve : List ℚ)
    (months : ℕ) : List ℚ :=
  (List.range months).map fun i =>
    let lastIndex := curve.length - 1
    let yearIndex := min (i / 12) lastIndex
    let nextIndex := min (yearIndex + 1) lastIndex
    let t : ℚ := ((i % 12 : ℕ) : ℚ) / 12
    round2 (initialValue *
      ((1 - t) * curve.getD yearIndex 0 + t * curve.getD nextIndex 0))

/-- C8: the yearly-multiplier curve form tabulates, for each month index
`i < months`, the piecewise-linear interpolation of the yearly retention
multipliers, clamped flat from `12 * lastIndex` onwards; for multipliers
`[0.9, 0.8]` and initial value 10000, month 0 yields 9000.00 and month 6
yields 8500.00. -/
theorem c8_yearly_curve :
    (∀ (v : ℚ) (c : List ℚ) (months : ℕ),
      (computeValueSeriesYearly v c months).length = months) ∧
    (∀ (v : ℚ) (c : List ℚ) (months i : ℕ), i < months →
      (computeValueSeriesYearly v c months).getD i 0 =
        round2 (v *
          ((1 - ((i % 12 : ℕ) : ℚ) / 12) *
              c.getD (min (i / 12) (c.length - 1)) 0 +
            (((i % 12 : ℕ) : ℚ) / 12) *
              c.getD (min (min (i / 12) (c.length - 1) + 1)
                (c.length - 1)) 0))) ∧
    (∀ (v : ℚ) (c : List ℚ) (months i : ℕ), i < months → c ≠ [] →
      12 * (c.length - 1) ≤ i →
      ∀ hc : c ≠ [],
        (computeValueSeriesYearly v c months).getD i 0 =
          round2 (v * c.getLast hc)) ∧
    (computeValueSeriesYearly 10000 [9/10, 8/10] 7).getD 0 0 = 9000 ∧
    (computeValueSeriesYearly 10000 [9/10, 8/10] 7).getD 6 0 = 8500 := by
  have hform : ∀ (v : ℚ) (c : List ℚ) (months i : ℕ), i < months →
      (computeValueSeriesYearly v c months).getD i 0 =
        round2 (v *
          ((1 - ((i % 12 : ℕ) : ℚ) / 12) *
              c.getD (min (i / 12) (c.length - 1)) 0 +
            (((i % 12 : ℕ) : ℚ) / 12) *
              c.getD (min (min (i / 12) (c.length - 1) + 1)
                (c.length - 1)) 0)) := by
    intro v c months i hi
    unfold computeValueSeriesYearly
    rw [getD_map_range _ _ _ _ hi]
  refine ⟨?_, hform, ?_, ?_, ?_⟩
  · intro v c months
    unfold computeValueSeriesYearly
    simp
  · intro v c months i hi hc hclamp hc'
    rw [hform v c months i hi]
    have hyear : min (i / 12) (c.length - 1) = c.length - 1 := by
      rcases Nat.eq_zero_or_pos (c.length - 1) with h0 | h0
      · rw [h0]
        exact Nat.min_zero _
      · refine min_eq_right ?_
        rw [Nat.le_div_iff_mul_le (by norm_num : 0 < 12)]
        omega
    rw [hyear, min_eq_right (Nat.le_succ _)]
    have hlen : c.length - 1 < c.length := by
      have hne : c.length ≠ 0 := by
        intro h0
        exact hc (List.eq_nil_of_length_eq_zero h0)
      omega
    have hlast : c.getD (c.length - 1) 0 = c.getLast hc' := by
      rw [List.getLast_eq_getElem]
      exact List.getD_eq_getElem c 0 hlen
    have hmid : (1 - ((i % 12 : ℕ) : ℚ) / 12) * c.getD (c.length - 1) 0 +
        (((i % 12 : ℕ) : ℚ) / 12) * c.getD (c.length - 1) 0 =
        c.getD (c.length - 1) 0 := by
      ring
    rw [hmid, hlast]
  · rw [hform 10000 [9/10, 8/10] 7 0 (by norm_num)]
    norm_num [List.getD_cons_zero, List.getD_cons_succ]
    exact round2_eq_self 900000 (by norm_num)
  · rw [hform 10000 [9/10, 8/10] 7 6 (by norm_num)]
    norm_num [List.getD_cons_zero, List.getD_cons_succ]
    exact round2_eq_self 850000 (by norm_num)

/-- C8 witness: the clamp description instantiated at month 25 of the
two-year curve, where the value stays at the final multiplier. -/
theorem c8_yearly_curve_witness :
    (computeValueSeriesYearly 10000 [9/10, 8/10] 30).getD 25 0 =
      round2 (10000 * ([9/10, 8/10] : List ℚ).getLast (by decide)) :=
  c8_yearly_curve.2.2.1 10000 [9/10, 8/10] 30 25 (by decide) (by decide)
    (by decide) (by decide)

/-- C9 amended: `calculate_car_value_over_time` performs no input validation
and raises no `InvalidCurve`: with `months ≤ 0` it returns the empty series,
and at the boundary rate 100 (monthly factor 0) it returns an all-zero series
rather than failing; it takes no yearly multipliers that could be
validated. -/
theorem c9_no_validation :
    (∀ v d : ℚ, calculate_car_value_over_time v d 0 = []) ∧
    (∀ (v : ℚ) (n : ℕ), calculate_car_value_over_time v 0 n =
      List.replicate n 0) := by
  constructor
  · intro v d
    rfl
  · intro v n
    show carValueLoop 0 v n = List.replicate n 0
    induction n generalizing v with
    | zero => rfl
    | succ n ih =>
      show round2 (v * 0) :: carValueLoop 0 (v * 0) n = List.replicate (n+1) 0
      rw [mul_zero]
      have h0 : round2 0 = 0 := by with_unfolding_all decide
      rw [h0, ih 0]
      rfl

/-- C9 counterexample: at `months = 0`, an input the spec says must fail with
`InvalidCurve`, the function simply returns the empty list — the source
contains no validation and no exception of any kind. -/
theorem c9_counterexample :
    calculate_car_value_over_time 10000 (1/2) 0 = [] := rfl

/-- The depreciation loop with a monthly factor in `[0, 1]` keeps every
stored value nonnegative, bounded by the rounded entry value, and
non-increasing along the list. -/
theorem carValueLoop_invariants (d : ℚ) (hd0 : 0 ≤ d) (hd1 : d ≤ 1) :
    ∀ (n : ℕ) (v : ℚ), 0 ≤ v →
      (carValueLoop d v n).length = n ∧
      (∀ x ∈ carValueLoop d v n, 0 ≤ x) ∧
      (∀ x ∈ carValueLoop d v n, x ≤ round2 v) ∧
      List.Chain' (fun a c => c ≤ a) (carValueLoop d v n) := by
  intro n
  induction n with
  | zero =>
    intro v hv
    refine ⟨rfl, ?_, ?_, List.chain'_nil⟩
    · intro x hx
      exact absurd hx (List.not_mem_nil x)
    · intro x hx
      exact absurd hx (List.not_mem_nil x)
  | succ n ih =>
    intro v hv
    have hv' : 0 ≤ v * d := mul_nonneg hv hd0
    have hvd : v * d ≤ v := mul_le_of_le_one_right hv hd1
    obtain ⟨ihlen, ihpos, ihbound, ihchain⟩ := ih (v * d) hv'
    refine ⟨?_, ?_, ?_, ?_⟩
    · show (round2 (v * d) :: carValueLoop d (v * d) n).length = n + 1
      rw [List.length_cons, ihlen]
    · intro x hx
      rcases List.mem_cons.mp hx with rfl | hx
      · exact round2_nonneg hv'
      · exact ihpos x hx
    · intro x hx
      rcases List.mem_cons.mp hx with rfl | hx
      · exact round2_mono hvd
      · exact le_trans (ihbound x hx) (round2_mono hvd)
    · show List.Chain' (fun a c => c ≤ a)
        (round2 (v * d) :: carValueLoop d (v * d) n)
      cases hl : carValueLoop d (v * d) n with
      | nil => simp
      | cons y ys =>
        rw [List.chain'_cons]
        constructor
        · apply ihbound
          rw [hl]
          exact List.mem_cons_self y ys
        · rw [hl] at ihchain
          exact ihchain

/-- C10: for nonnegative initial value, at least one month, and a constant
annual depreciation rate in `[0, 100)` — whose monthly factor `d` is the
nonnegative real solving `d ^ 12 = 1 - rate / 100` — the series has exactly
`months` entries, every entry is nonnegative, and the entries never increase
month over month. -/
theorem c10_car_value_invariants (v d rate : ℚ) (months : ℕ)
    (hv : 0 ≤ v) (hm : 1 ≤ months) (h0 : 0 ≤ rate) (h100 : rate < 100)
    (hroot : d ^ 12 = 1 - rate / 100) (hd0 : 0 ≤ d) :
    (calculate_car_value_over_time v d months).length = months ∧
    (∀ x ∈ calculate_car_value_over_time v d months, 0 ≤ x) ∧
    List.Chain' (fun a c => c ≤ a)
      (calculate_car_value_over_time v d months) := by
  have hd1 : d ≤ 1 := by
    by_contra hgt
    push_neg at hgt
    have hpow : (1:ℚ) < d ^ 12 := one_lt_pow₀ hgt (by norm_num)
    rw [hroot] at hpow
    have : (0:ℚ) ≤ rate / 100 := div_nonneg h0 (by norm_num)
    linarith
  obtain ⟨h1, h2, _, h4⟩ := carValueLoop_invariants d hd0 hd1 months v hv
  exact ⟨h1, h2, h4⟩

/-- C10 witness: monthly factor `1/2` corresponds to the annual rate
`102375/1024 ≈ 99.98 < 100`; two months from value 100 give `[50, 25]`. -/
theorem c10_car_value_invariants_witness :
    (calculate_car_value_over_time 100 (1/2) 2).length = 2 ∧
    (∀ x ∈ calculate_car_value_over_time 100 (1/2) 2, 0 ≤ x) ∧
    List.Chain' (fun a c => c ≤ a)
      (calculate_car_value_over_time 100 (1/2) 2) :=
  c10_car_value_invariants 100 (1/2) (102375/1024) 2 (by norm_num)
    (by norm_num) (by norm_num) (by norm_num) (by norm_num) (by norm_num)
